import Mathlib

/-!
Verification of the AluSearch application core (streamlit_app_v4.py) against its
natural-language specification.

Embedding conventions: pandas DataFrames become lists of records; NaN-able cells
become Option values; Python floats become exact rationals (every concrete value
used in a theorem below is exactly representable as a binary float, and the only
operations the program performs on them are comparisons, min/max and int()
truncation, all of which are exact, so rational arithmetic agrees with the float
arithmetic the program performs); Python's int() truncation toward zero becomes
truncating division of a rational's numerator by its denominator; the two files
the program touches (the CSV and the counter file) are passed in explicitly.
-/

/-! ### Visitor counter store: get_visitor_count / increment_visitor_count

The counter file is modelled as an Option String: none when the file is absent
(FileNotFoundError on open), some s when it holds text s.  Python's int()
parsing of the content is modelled by pyParseInt: strip surrounding ASCII
whitespace, an optional sign, then a nonempty run of decimal digits (Python's
underscore digit separators and non-ASCII digits are not modelled; they never
arise from the writer below).  Python's str() of an integer is pyStr. -/

def isPyWs (c : Char) : Bool :=
  c == ' ' || c == '\t' || c == '\n' || c == '\r' || c == '\x0b' || c == '\x0c'

def pyTrim (cs : List Char) : List Char :=
  ((cs.dropWhile isPyWs).reverse.dropWhile isPyWs).reverse

def digitsVal (cs : List Char) : ℕ :=
  cs.foldl (fun a c => a * 10 + (c.toNat - 48)) 0

def parseUnsigned (cs : List Char) : Option ℕ :=
  if cs ≠ [] ∧ cs.all Char.isDigit then some (digitsVal cs) else none

def pyParseSigned : List Char → Option ℤ
  | [] => none
  | c :: rest =>
    if c == '-' then (parseUnsigned rest).map (fun k : ℕ => -(k : ℤ))
    else if c == '+' then (parseUnsigned rest).map (fun k : ℕ => (k : ℤ))
    else (parseUnsigned (c :: rest)).map (fun k : ℕ => (k : ℤ))

def pyParseInt (s : String) : Option ℤ :=
  pyParseSigned (pyTrim s.data)

def natChars (m : ℕ) : List Char :=
  if m = 0 then ['0'] else (Nat.digits 10 m).reverse.map (fun d => Char.ofNat (48 + d))

def pyStr (n : ℤ) : String :=
  String.mk (if n < 0 then '-' :: natChars n.natAbs else natChars n.natAbs)

/-- Embeds get_visitor_count: read the counter file and parse it with int();
on FileNotFoundError (file = none) or ValueError (unparsable content) return 0. -/
def get_visitor_count (file : Option String) : ℤ :=
  match file with
  | none => 0
  | some s => (pyParseInt s).getD 0

/-- Embeds increment_visitor_count: compute get_visitor_count () + 1 and
overwrite the counter file with str(count).  The write is modelled as
succeeding (the Python code reports but swallows write failures). -/
def increment_visitor_count (file : Option String) : Option String :=
  some (pyStr (get_visitor_count file + 1))

/-! ### Data model

One CSV row.  The five columns the filter sliders read (tensile strength, yield
strength, elongation, thermal conductivity, electrical conductivity) and the
twelve columns load_alloy_data fills are modelled per the source: the fillable
columns are Option-valued (they may be NaN before cleaning), the mechanical
columns the loader does not touch are taken as plain rationals (the spec lists
them as required numeric columns).  Al_percent may hold text such as "Rem.". -/

inductive AlCell where
  | num (q : ℚ)
  | text (s : String)
deriving DecidableEq

structure AlloyRecord where
  alloy : String
  temper : String
  descriptionText : String
  tensile_strength_mpa : ℚ
  yield_strength_mpa : ℚ
  elongation_percent : ℚ
  hardness_brinell : ℚ
  corrosion_resistance : Option String
  Si_percent : Option ℚ
  Fe_percent : Option ℚ
  Cu_percent : Option ℚ
  Mn_percent : Option ℚ
  Mg_percent : Option ℚ
  Cr_percent : Option ℚ
  Zn_percent : Option ℚ
  Ti_percent : Option ℚ
  density_g_cm3 : Option ℚ
  thermal_expansion_e6_k : Option ℚ
  thermal_conductivity_w_mk : Option ℚ
  electrical_conductivity_iacs : Option ℚ
  Al_percent : AlCell
deriving DecidableEq

/-! ### Dataset loader: load_alloy_data -/

/-- Result of the pandas read_csv call plus the presence check the loader
performs on the corrosion_resistance column.  notFound models
FileNotFoundError; failure models any other exception raised while reading or
while indexing the twelve fill columns (its cause string is carried); table
models a successful parse of a frame that has the twelve fill columns, with
hasCorrosionCol recording whether a corrosion_resistance column is present. -/
inductive CsvReadResult where
  | notFound
  | failure (cause : String)
  | table (hasCorrosionCol : Bool) (rows : List AlloyRecord)

/-- Which branch of load_alloy_data ran: ok is the normal return, the other two
are the two except branches (each shows a distinct st.error message; loadError
carries the formatted underlying cause). -/
inductive LoadOutcome where
  | ok
  | notFoundError
  | loadError (cause : String)
deriving DecidableEq

/-- Embeds the per-row effect of df[cols_to_fill].fillna(0) followed by the
guarded corrosion_resistance fillna of a dash: the twelve numeric fill columns
get 0 where missing; corrosion_resistance gets the dash sentinel where missing,
but only when the column is present; everything else (Al_percent included) is
untouched. -/
def cleanRow (hasCorrosionCol : Bool) (r : AlloyRecord) : AlloyRecord :=
  { r with
    Si_percent := some (r.Si_percent.getD 0)
    Fe_percent := some (r.Fe_percent.getD 0)
    Cu_percent := some (r.Cu_percent.getD 0)
    Mn_percent := some (r.Mn_percent.getD 0)
    Mg_percent := some (r.Mg_percent.getD 0)
    Cr_percent := some (r.Cr_percent.getD 0)
    Zn_percent := some (r.Zn_percent.getD 0)
    Ti_percent := some (r.Ti_percent.getD 0)
    density_g_cm3 := some (r.density_g_cm3.getD 0)
    thermal_expansion_e6_k := some (r.thermal_expansion_e6_k.getD 0)
    thermal_conductivity_w_mk := some (r.thermal_conductivity_w_mk.getD 0)
    electrical_conductivity_iacs := some (r.electrical_conductivity_iacs.getD 0)
    corrosion_resistance :=
      if hasCorrosionCol then some (r.corrosion_resistance.getD "-")
      else r.corrosion_resistance }

/-- Embeds load_alloy_data: on success return the cleaned frame; on
FileNotFoundError or any other exception show the corresponding error and
return an empty frame. -/
def load_alloy_data : CsvReadResult → LoadOutcome × List AlloyRecord
  | .notFound => (.notFoundError, [])
  | .failure cause => (.loadError cause, [])
  | .table hasCorr rows => (.ok, rows.map (cleanRow hasCorr))

/-- Embeds the caller guard in main: if df.empty: return.  True iff main keeps
processing after the load. -/
def mainProceeds (res : CsvReadResult) : Bool :=
  !(load_alloy_data res).2.isEmpty

/-! ### Filter engine

The sidebar filter of main, lines 98-136.  Python's int() on a float truncates
toward zero; on an exact rational that is numerator tdiv denominator. -/

def pyInt (q : ℚ) : ℤ := q.num.tdiv q.den

/-- Minimum of a pandas numeric column (the column is nonempty in every use;
the 0 default for an empty list is never exercised by the program, which
returns before the sliders when the frame is empty). -/
def colMin : List ℚ → ℚ
  | [] => 0
  | [x] => x
  | x :: y :: xs => min x (colMin (y :: xs))

def colMax : List ℚ → ℚ
  | [] => 0
  | [x] => x
  | x :: y :: xs => max x (colMax (y :: xs))

/-- Embeds one slider-bounds computation: lo and hi are int() of the column min
and max, and when they coincide the displayed upper bound is widened by one so
the slider has a non-degenerate span.  The slider's default value, which is the
full-span FilterState below, is exactly this pair. -/
def sliderRange (vals : List ℚ) : ℤ × ℤ :=
  if pyInt (colMin vals) = pyInt (colMax vals)
  then (pyInt (colMin vals), pyInt (colMax vals) + 1)
  else (pyInt (colMin vals), pyInt (colMax vals))

/-- Lexicographic code-point comparison of char lists, the order Python uses
to compare strings. -/
def charsLe : List Char → List Char → Bool
  | [], _ => true
  | _ :: _, [] => false
  | a :: as, b :: bs =>
    if a.toNat < b.toNat then true
    else if b.toNat < a.toNat then false
    else charsLe as bs

def pyStrLe (a b : String) : Bool := charsLe a.data b.data

/-- Insertion of a string into a sorted list, the building block of the
sorted() model below. -/
def insertSorted (s : String) : List String → List String
  | [] => [s]
  | x :: xs => if pyStrLe s x then s :: x :: xs else x :: insertSorted s xs

/-- Models Python's sorted() on a list of strings (ascending lexicographic
order; on a duplicate-free list the result is independent of the sort
algorithm). -/
def sortStrings (l : List String) : List String :=
  l.foldr insertSorted []

/-- Embeds sorted(df['corrosion_resistance'].unique().tolist()) on a cleaned
frame (where the column holds no NaN, so unique() yields exactly the distinct
string values). -/
def corrosionOptions (df : List AlloyRecord) : List String :=
  sortStrings (df.filterMap (·.corrosion_resistance)).dedup

/-- The widget state the filter reads: the multiselect value and the five
slider values (slider endpoints are integers because the sliders are built from
integer bounds). -/
structure FilterState where
  selected_corrosion : List String
  tensile_range : ℤ × ℤ
  yield_range : ℤ × ℤ
  elongation_range : ℤ × ℤ
  thermal_cond_range : ℤ × ℤ
  elec_cond_range : ℤ × ℤ

/-- Embeds Series.between(lo, hi) for one cell: inclusive on both ends. -/
def betweenQ (v : ℚ) (rng : ℤ × ℤ) : Bool :=
  decide ((rng.1 : ℚ) ≤ v) && decide (v ≤ (rng.2 : ℚ))

/-- Series.between applied to a NaN-able cell: a missing value never passes
(pandas comparisons with NaN are false). -/
def betweenOpt (v : Option ℚ) (rng : ℤ × ℤ) : Bool :=
  match v with
  | none => false
  | some q => betweenQ q rng

/-- Series.isin applied to a NaN-able cell against the multiselect value. -/
def isinOpt (v : Option String) (sel : List String) : Bool :=
  match v with
  | none => false
  | some c => sel.contains c

/-- Embeds the row mask of lines 129-136: the conjunction of the isin test and
the five between tests, in source order. -/
def rowPasses (fs : FilterState) (r : AlloyRecord) : Bool :=
  isinOpt r.corrosion_resistance fs.selected_corrosion
    && betweenQ r.tensile_strength_mpa fs.tensile_range
    && betweenQ r.yield_strength_mpa fs.yield_range
    && betweenQ r.elongation_percent fs.elongation_range
    && betweenOpt r.thermal_conductivity_w_mk fs.thermal_cond_range
    && betweenOpt r.electrical_conductivity_iacs fs.elec_cond_range

/-- Embeds filtered_df = df[mask].copy(): the rows whose mask bit is set, in
frame order. -/
def filteredDataset (df : List AlloyRecord) (fs : FilterState) : List AlloyRecord :=
  df.filter (rowPasses fs)

/-- The FilterState main builds before any user interaction: every corrosion
category present is selected (the multiselect default) and every slider sits at
its full span (the slider default value is its own bounds pair). -/
def defaultFilterState (df : List AlloyRecord) : FilterState :=
  { selected_corrosion := corrosionOptions df
    tensile_range := sliderRange (df.map (·.tensile_strength_mpa))
    yield_range := sliderRange (df.map (·.yield_strength_mpa))
    elongation_range := sliderRange (df.map (·.elongation_percent))
    thermal_cond_range := sliderRange (df.filterMap (·.thermal_conductivity_w_mk))
    elec_cond_range := sliderRange (df.filterMap (·.electrical_conductivity_iacs)) }

/-! ### Selection resolver

Lines 139-153 build the two selectboxes from the filtered frame; lines 168-169
resolve the chosen pair to its first matching row with iloc[0].  A selectbox
yields none when its option list is empty; Python's truthiness test
if selected_alloy and selected_temper treats none and the empty string alike as
false, in which case main renders a message instead of resolving. -/

def pyTruthy : Option String → Bool
  | none => false
  | some s => !(s == "")

/-- Embeds alloy_list = sorted(filtered_df['alloy'].unique().tolist()). -/
def alloyList (fd : List AlloyRecord) : List String :=
  sortStrings (fd.map (·.alloy)).dedup

/-- Embeds available_tempers: the sorted distinct tempers of the filtered rows
matching the chosen alloy when that choice is truthy, else the empty list. -/
def availableTempers (fd : List AlloyRecord) (sa : Option String) : List String :=
  if pyTruthy sa then
    sortStrings ((fd.filter (fun r => r.alloy == sa.getD "")).map (·.temper)).dedup
  else []

/-- Embeds the guarded resolution of lines 168-169: when both choices are
truthy, the first filtered row matching both (iloc[0] of the doubly-masked
frame); otherwise no record is resolved (main shows a message instead). -/
def resolveSelection (fd : List AlloyRecord) (sa st : Option String) :
    Option AlloyRecord :=
  if pyTruthy sa && pyTruthy st then
    (fd.filter (fun r => r.alloy == sa.getD "" && r.temper == st.getD "")).head?
  else none

/-! ### Helper lemmas about the counter file round trip -/

lemma dropWhile_eq_self_of {p : Char → Bool} {cs : List Char}
    (h : ∀ c ∈ cs, p c = false) : cs.dropWhile p = cs := by
  cases cs with
  | nil => rfl
  | cons c cs => simp [List.dropWhile_cons, h c (List.mem_cons_self c cs)]

lemma pyTrim_eq_self {cs : List Char} (h : ∀ c ∈ cs, isPyWs c = false) :
    pyTrim cs = cs := by
  unfold pyTrim
  rw [dropWhile_eq_self_of h, dropWhile_eq_self_of, List.reverse_reverse]
  intro c hc
  exact h c (List.mem_reverse.mp hc)

lemma digitChar_facts {d : ℕ} (hd : d < 10) :
    (Char.ofNat (48 + d)).isDigit = true ∧ isPyWs (Char.ofNat (48 + d)) = false ∧
      ((Char.ofNat (48 + d)) == '-') = false ∧ ((Char.ofNat (48 + d)) == '+') = false ∧
      (Char.ofNat (48 + d)).toNat - 48 = d := by
  interval_cases d <;> decide

lemma digitsVal_rev_aux :
    ∀ L : List ℕ, (∀ d ∈ L, d < 10) → ∀ a : ℕ,
      (L.reverse.map (fun d => Char.ofNat (48 + d))).foldl
          (fun x c => x * 10 + (c.toNat - 48)) a
        = a * 10 ^ L.length + Nat.ofDigits 10 L := by
  intro L
  induction L with
  | nil => intro _ a; simp [Nat.ofDigits_nil]
  | cons d L ih =>
      intro h a
      have hd : d < 10 := h d (List.mem_cons_self d L)
      have hL : ∀ x ∈ L, x < 10 := fun x hx => h x (List.mem_cons_of_mem d hx)
      have hdc := (digitChar_facts hd).2.2.2.2
      simp only [List.reverse_cons, List.map_append, List.foldl_append, List.map_cons,
        List.map_nil, List.foldl_cons, List.foldl_nil, ih hL a, hdc,
        Nat.ofDigits_cons, List.length_cons]
      ring

lemma natChars_spec (m : ℕ) :
    natChars m ≠ [] ∧ (∀ c ∈ natChars m, c.isDigit = true ∧ isPyWs c = false ∧
      (c == '-') = false ∧ (c == '+') = false) ∧ digitsVal (natChars m) = m := by
  rcases eq_or_ne m 0 with hm | hm
  · subst hm
    exact ⟨by decide, by decide, by decide⟩
  · have hCh : natChars m = (Nat.digits 10 m).reverse.map (fun d => Char.ofNat (48 + d)) := by
      simp [natChars, hm]
    have hlt : ∀ d ∈ Nat.digits 10 m, d < 10 := fun d hd =>
      Nat.digits_lt_base (by norm_num) hd
    refine ⟨?_, ?_, ?_⟩
    · rw [hCh]
      simp [Nat.digits_ne_nil_iff_ne_zero, hm]
    · intro c hc
      rw [hCh] at hc
      obtain ⟨d, hd, rfl⟩ := List.mem_map.mp hc
      have hd10 : d < 10 := hlt d (List.mem_reverse.mp hd)
      obtain ⟨h1, h2, h3, h4, _⟩ := digitChar_facts hd10
      exact ⟨h1, h2, h3, h4⟩
    · rw [hCh]
      unfold digitsVal
      rw [digitsVal_rev_aux _ hlt 0]
      simp [Nat.ofDigits_digits]

lemma parseUnsigned_natChars (m : ℕ) : parseUnsigned (natChars m) = some m := by
  obtain ⟨hne, hall, hval⟩ := natChars_spec m
  unfold parseUnsigned
  rw [if_pos, hval]
  refine ⟨hne, ?_⟩
  rw [List.all_eq_true]
  intro c hc
  exact (hall c hc).1

lemma pyStr_data (n : ℤ) :
    (pyStr n).data = if n < 0 then '-' :: natChars n.natAbs else natChars n.natAbs := rfl

/-- The written counter text always parses back to the written value. -/
lemma pyParseInt_pyStr (n : ℤ) : pyParseInt (pyStr n) = some n := by
  obtain ⟨hne, hall, _⟩ := natChars_spec n.natAbs
  rcases lt_or_le n 0 with hn | hn
  · have htrim : pyTrim ((pyStr n).data) = '-' :: natChars n.natAbs := by
      rw [pyStr_data, if_pos hn]
      apply pyTrim_eq_self
      intro x hx
      rcases List.mem_cons.mp hx with rfl | hx
      · decide
      · exact (hall x hx).2.1
    unfold pyParseInt
    rw [htrim]
    have h1 : pyParseSigned ('-' :: natChars n.natAbs)
        = (parseUnsigned (natChars n.natAbs)).map (fun k : ℕ => -(k : ℤ)) := rfl
    rw [h1, parseUnsigned_natChars]
    simp only [Option.map_some']
    exact congrArg some (by omega)
  · obtain ⟨c, cs, hcs⟩ : ∃ c cs, natChars n.natAbs = c :: cs := by
      cases h : natChars n.natAbs with
      | nil => exact absurd h hne
      | cons c cs => exact ⟨c, cs, rfl⟩
    have hc := hall c (hcs ▸ List.mem_cons_self c cs)
    have htrim : pyTrim ((pyStr n).data) = c :: cs := by
      rw [pyStr_data, if_neg (not_lt.mpr hn), hcs]
      apply pyTrim_eq_self
      intro x hx
      exact (hall x (hcs ▸ hx)).2.1
    unfold pyParseInt
    rw [htrim]
    have hm : ¬ ((c == '-') = true) := by rw [hc.2.2.1]; exact Bool.false_ne_true
    have hp : ¬ ((c == '+') = true) := by rw [hc.2.2.2]; exact Bool.false_ne_true
    have h1 : pyParseSigned (c :: cs) = (parseUnsigned (c :: cs)).map (fun k : ℕ => (k : ℤ)) := by
      simp only [pyParseSigned]
      rw [if_neg hm, if_neg hp]
    rw [h1, ← hcs, parseUnsigned_natChars]
    simp only [Option.map_some']
    exact congrArg some (by omega)

/-- C7: the counter read operation returns the integer stored in the counter
resource, and returns 0 — without raising any error — when the resource is
missing or its content is not a valid integer. -/
theorem counter_read_spec (file : Option String) :
    (file = none → get_visitor_count file = 0)
  ∧ (∀ s, file = some s → pyParseInt s = none → get_visitor_count file = 0)
  ∧ (∀ s n, file = some s → pyParseInt s = some n → get_visitor_count file = n) := by
  refine ⟨?_, ?_, ?_⟩
  · rintro rfl; rfl
  · rintro s rfl h; simp [get_visitor_count, h]
  · rintro s n rfl h; simp [get_visitor_count, h]

/-- C7 witness: a missing file reads as 0, corrupt content reads as 0, and a
stored 41 (with surrounding whitespace) reads back as 41. -/
theorem counter_read_spec_witness :
    get_visitor_count none = 0 ∧ get_visitor_count (some "banana") = 0
      ∧ get_visitor_count (some " 41 ") = 41 :=
  ⟨(counter_read_spec none).1 rfl,
   (counter_read_spec (some "banana")).2.1 "banana" rfl (by decide),
   (counter_read_spec (some " 41 ")).2.2 " 41 " 41 rfl (by decide)⟩

/-- C8: increment computes read () + 1 and overwrites the counter resource
with that value as plain text, and N sequential increments (single writer,
writes succeeding) leave the stored value equal to initial + N. -/
theorem counter_increment_accumulates (file : Option String) (N : ℕ) :
    increment_visitor_count file = some (pyStr (get_visitor_count file + 1))
  ∧ get_visitor_count (increment_visitor_count^[N] file)
      = get_visitor_count file + N
  ∧ (1 ≤ N → increment_visitor_count^[N] file
      = some (pyStr (get_visitor_count file + N))) := by
  have key : ∀ f, get_visitor_count (increment_visitor_count f)
      = get_visitor_count f + 1 := by
    intro f
    show (pyParseInt (pyStr (get_visitor_count f + 1))).getD 0 = get_visitor_count f + 1
    rw [pyParseInt_pyStr]
    rfl
  have iter : ∀ M : ℕ, ∀ f, get_visitor_count (increment_visitor_count^[M] f)
      = get_visitor_count f + M := by
    intro M
    induction M with
    | zero => intro f; simp
    | succ M ih =>
        intro f
        rw [Function.iterate_succ_apply', key, ih]
        push_cast
        ring
  refine ⟨rfl, iter N file, ?_⟩
  intro hN
  obtain ⟨M, rfl⟩ : ∃ M, N = M + 1 := ⟨N - 1, by omega⟩
  rw [Function.iterate_succ_apply']
  show some (pyStr (get_visitor_count (increment_visitor_count^[M] file) + 1)) = _
  rw [iter M file]
  have harith : get_visitor_count file + (M : ℤ) + 1
      = get_visitor_count file + ((M + 1 : ℕ) : ℤ) := by push_cast; ring
  rw [harith]

/-- C8 witness: three increments starting from a stored 41 give a read of 44
and the text of 44 on disk. -/
theorem counter_increment_accumulates_witness :
    get_visitor_count (increment_visitor_count^[3] (some " 41 "))
        = get_visitor_count (some " 41 ") + 3
  ∧ increment_visitor_count^[3] (some " 41 ")
        = some (pyStr (get_visitor_count (some " 41 ") + 3)) :=
  ⟨(counter_increment_accumulates (some " 41 ") 3).2.1,
   (counter_increment_accumulates (some " 41 ") 3).2.2 (by decide)⟩

/-! ### Helper lemmas about the filter engine -/

lemma colMin_le : ∀ l : List ℚ, ∀ x ∈ l, colMin l ≤ x
  | [] => by intro x hx; simp at hx
  | [x0] => by
      intro x hx
      rw [List.mem_singleton] at hx
      subst hx
      exact le_refl _
  | x0 :: y :: xs => by
      intro x hx
      rcases List.mem_cons.mp hx with rfl | hx'
      · exact min_le_left _ _
      · exact le_trans (min_le_right _ _) (colMin_le (y :: xs) x hx')

lemma le_colMax : ∀ l : List ℚ, ∀ x ∈ l, x ≤ colMax l
  | [] => by intro x hx; simp at hx
  | [x0] => by
      intro x hx
      rw [List.mem_singleton] at hx
      subst hx
      exact le_refl _
  | x0 :: y :: xs => by
      intro x hx
      rcases List.mem_cons.mp hx with rfl | hx'
      · exact le_max_left _ _
      · exact le_trans (le_colMax (y :: xs) x hx') (le_max_right _ _)

lemma colMin_mem : ∀ l : List ℚ, l ≠ [] → colMin l ∈ l
  | [], h => absurd rfl h
  | [x0], _ => by simp [colMin]
  | x0 :: y :: xs, _ => by
      have h0 : colMin (x0 :: y :: xs) = min x0 (colMin (y :: xs)) := rfl
      rcases min_choice x0 (colMin (y :: xs)) with h | h
      · rw [h0, h]; exact List.mem_cons_self _ _
      · rw [h0, h]
        exact List.mem_cons_of_mem _ (colMin_mem (y :: xs) (by simp))

lemma colMax_mem : ∀ l : List ℚ, l ≠ [] → colMax l ∈ l
  | [], h => absurd rfl h
  | [x0], _ => by simp [colMax]
  | x0 :: y :: xs, _ => by
      have h0 : colMax (x0 :: y :: xs) = max x0 (colMax (y :: xs)) := rfl
      rcases max_choice x0 (colMax (y :: xs)) with h | h
      · rw [h0, h]; exact List.mem_cons_self _ _
      · rw [h0, h]
        exact List.mem_cons_of_mem _ (colMax_mem (y :: xs) (by simp))

/-- Python int () is the identity on a whole number. -/
lemma pyInt_intCast (n : ℤ) : pyInt ((n : ℚ)) = n := by
  simp [pyInt, Rat.num_intCast, Rat.den_intCast]

lemma pyInt_den_one {q : ℚ} (h : q.den = 1) : ((pyInt q : ℤ) : ℚ) = q := by
  have hq : ((q.num : ℤ) : ℚ) = q := (Rat.den_eq_one_iff q).mp h
  calc ((pyInt q : ℤ) : ℚ) = ((pyInt ((q.num : ℤ) : ℚ) : ℤ) : ℚ) := by rw [hq]
    _ = ((q.num : ℤ) : ℚ) := by rw [pyInt_intCast]
    _ = q := hq

/-- On nonnegative rationals Python int () is the floor. -/
lemma pyInt_eq_floor {q : ℚ} (h : 0 ≤ q) : pyInt q = ⌊q⌋ := by
  rw [Rat.floor_def]
  exact Int.tdiv_eq_ediv (Rat.num_nonneg.mpr h) (by positivity)

lemma pyInt_le_of_nonneg {q : ℚ} (h : 0 ≤ q) : ((pyInt q : ℤ) : ℚ) ≤ q := by
  rw [pyInt_eq_floor h]
  exact Int.floor_le q

lemma lt_pyInt_add_one_of_nonneg {q : ℚ} (h : 0 ≤ q) : q < ((pyInt q : ℤ) : ℚ) + 1 := by
  rw [pyInt_eq_floor h]
  exact Int.lt_floor_add_one q

lemma betweenQ_iff (v : ℚ) (rng : ℤ × ℤ) :
    betweenQ v rng = true ↔ ((rng.1 : ℚ) ≤ v ∧ v ≤ (rng.2 : ℚ)) := by
  simp [betweenQ]

/-- A column value passes its own column's full-span slider provided every
value in the column is a whole number (so that the int () truncation of the
bounds loses nothing). -/
lemma betweenQ_sliderRange {vals : List ℚ} {v : ℚ} (hv : v ∈ vals)
    (hden : ∀ x ∈ vals, x.den = 1) : betweenQ v (sliderRange vals) = true := by
  have hne : vals ≠ [] := List.ne_nil_of_mem hv
  have hmin : ((pyInt (colMin vals) : ℤ) : ℚ) = colMin vals :=
    pyInt_den_one (hden _ (colMin_mem vals hne))
  have hmax : ((pyInt (colMax vals) : ℤ) : ℚ) = colMax vals :=
    pyInt_den_one (hden _ (colMax_mem vals hne))
  have h1 : ((pyInt (colMin vals) : ℤ) : ℚ) ≤ v := by
    rw [hmin]; exact colMin_le vals v hv
  have h2 : v ≤ ((pyInt (colMax vals) : ℤ) : ℚ) := by
    rw [hmax]; exact le_colMax vals v hv
  rw [betweenQ_iff]
  unfold sliderRange
  by_cases hc : pyInt (colMin vals) = pyInt (colMax vals)
  · rw [if_pos hc]
    refine ⟨h1, ?_⟩
    have : ((pyInt (colMax vals) + 1 : ℤ) : ℚ) = ((pyInt (colMax vals) : ℤ) : ℚ) + 1 := by
      push_cast; ring
    rw [this]
    linarith
  · rw [if_neg hc]
    exact ⟨h1, h2⟩

lemma isinOpt_iff (v : Option String) (sel : List String) :
    isinOpt v sel = true ↔ ∃ c, v = some c ∧ c ∈ sel := by
  cases v <;> simp [isinOpt]

lemma betweenOpt_iff (v : Option ℚ) (rng : ℤ × ℤ) :
    betweenOpt v rng = true ↔ ∃ q, v = some q ∧ (rng.1 : ℚ) ≤ q ∧ q ≤ (rng.2 : ℚ) := by
  cases v <;> simp [betweenOpt, betweenQ]

/-- The row mask, spelled out as the conjunction of the six predicates the
spec lists. -/
lemma rowPasses_iff (fs : FilterState) (r : AlloyRecord) :
    rowPasses fs r = true ↔
      (∃ c, r.corrosion_resistance = some c ∧ c ∈ fs.selected_corrosion)
      ∧ ((fs.tensile_range.1 : ℚ) ≤ r.tensile_strength_mpa
          ∧ r.tensile_strength_mpa ≤ (fs.tensile_range.2 : ℚ))
      ∧ ((fs.yield_range.1 : ℚ) ≤ r.yield_strength_mpa
          ∧ r.yield_strength_mpa ≤ (fs.yield_range.2 : ℚ))
      ∧ ((fs.elongation_range.1 : ℚ) ≤ r.elongation_percent
          ∧ r.elongation_percent ≤ (fs.elongation_range.2 : ℚ))
      ∧ (∃ q, r.thermal_conductivity_w_mk = some q
          ∧ (fs.thermal_cond_range.1 : ℚ) ≤ q ∧ q ≤ (fs.thermal_cond_range.2 : ℚ))
      ∧ (∃ q, r.electrical_conductivity_iacs = some q
          ∧ (fs.elec_cond_range.1 : ℚ) ≤ q ∧ q ≤ (fs.elec_cond_range.2 : ℚ)) := by
  unfold rowPasses
  simp only [Bool.and_eq_true, isinOpt_iff, betweenOpt_iff, betweenQ_iff]
  tauto

/-- C2: a row appears in the FilteredDataset iff all six predicates hold — its
corrosion value is a member of the selected category set and its five numeric
values lie within the corresponding inclusive ranges — and the FilteredDataset
preserves the Dataset's row order (stable filter: it is a sublist of the
Dataset, no resort). -/
theorem filter_engine_iff_and_stable (df : List AlloyRecord) (fs : FilterState) :
    (∀ r, r ∈ filteredDataset df fs ↔ r ∈ df ∧
      ((∃ c, r.corrosion_resistance = some c ∧ c ∈ fs.selected_corrosion)
      ∧ ((fs.tensile_range.1 : ℚ) ≤ r.tensile_strength_mpa
          ∧ r.tensile_strength_mpa ≤ (fs.tensile_range.2 : ℚ))
      ∧ ((fs.yield_range.1 : ℚ) ≤ r.yield_strength_mpa
          ∧ r.yield_strength_mpa ≤ (fs.yield_range.2 : ℚ))
      ∧ ((fs.elongation_range.1 : ℚ) ≤ r.elongation_percent
          ∧ r.elongation_percent ≤ (fs.elongation_range.2 : ℚ))
      ∧ (∃ q, r.thermal_conductivity_w_mk = some q
          ∧ (fs.thermal_cond_range.1 : ℚ) ≤ q ∧ q ≤ (fs.thermal_cond_range.2 : ℚ))
      ∧ (∃ q, r.electrical_conductivity_iacs = some q
          ∧ (fs.elec_cond_range.1 : ℚ) ≤ q ∧ q ≤ (fs.elec_cond_range.2 : ℚ))))
  ∧ List.Sublist (filteredDataset df fs) df := by
  constructor
  · intro r
    rw [filteredDataset, List.mem_filter, rowPasses_iff]
  · exact List.filter_sublist df

/-! ### Monotonicity of the filter -/

lemma length_filter_mono {α : Type} {p q : α → Bool} :
    ∀ l : List α, (∀ a ∈ l, p a = true → q a = true) →
      (l.filter p).length ≤ (l.filter q).length
  | [], _ => le_refl _
  | a :: l, h => by
      have ih := length_filter_mono l (fun x hx => h x (List.mem_cons_of_mem a hx))
      by_cases hp : p a = true
      · rw [List.filter_cons_of_pos hp,
          List.filter_cons_of_pos (h a (List.mem_cons_self a l) hp)]
        simpa using ih
      · rw [List.filter_cons_of_neg (by simpa using hp)]
        by_cases hq : q a = true
        · rw [List.filter_cons_of_pos hq]
          exact le_trans ih (Nat.le_succ _)
        · rw [List.filter_cons_of_neg (by simpa using hq)]
          exact ih

lemma betweenQ_mono {v : ℚ} {rng rng' : ℤ × ℤ} (h1 : rng.1 ≤ rng'.1)
    (h2 : rng'.2 ≤ rng.2) (hv : betweenQ v rng' = true) : betweenQ v rng = true := by
  rw [betweenQ_iff] at hv ⊢
  constructor
  · exact le_trans (Int.cast_le.mpr h1) hv.1
  · exact le_trans hv.2 (Int.cast_le.mpr h2)

lemma betweenOpt_mono {v : Option ℚ} {rng rng' : ℤ × ℤ} (h1 : rng.1 ≤ rng'.1)
    (h2 : rng'.2 ≤ rng.2) (hv : betweenOpt v rng' = true) : betweenOpt v rng = true := by
  cases v with
  | none => exact hv
  | some q => exact betweenQ_mono h1 h2 hv

lemma rowPasses_mono {fs fs' : FilterState}
    (hsel : ∀ c ∈ fs'.selected_corrosion, c ∈ fs.selected_corrosion)
    (ht1 : fs.tensile_range.1 ≤ fs'.tensile_range.1)
    (ht2 : fs'.tensile_range.2 ≤ fs.tensile_range.2)
    (hy1 : fs.yield_range.1 ≤ fs'.yield_range.1)
    (hy2 : fs'.yield_range.2 ≤ fs.yield_range.2)
    (he1 : fs.elongation_range.1 ≤ fs'.elongation_range.1)
    (he2 : fs'.elongation_range.2 ≤ fs.elongation_range.2)
    (hth1 : fs.thermal_cond_range.1 ≤ fs'.thermal_cond_range.1)
    (hth2 : fs'.thermal_cond_range.2 ≤ fs.thermal_cond_range.2)
    (hel1 : fs.elec_cond_range.1 ≤ fs'.elec_cond_range.1)
    (hel2 : fs'.elec_cond_range.2 ≤ fs.elec_cond_range.2)
    (r : AlloyRecord) (h : rowPasses fs' r = true) : rowPasses fs r = true := by
  unfold rowPasses at h ⊢
  simp only [Bool.and_eq_true] at h ⊢
  obtain ⟨⟨⟨⟨⟨hco, hte⟩, hyi⟩, hel⟩, hth⟩, hec⟩ := h
  refine ⟨⟨⟨⟨⟨?_, betweenQ_mono ht1 ht2 hte⟩, betweenQ_mono hy1 hy2 hyi⟩,
    betweenQ_mono he1 he2 hel⟩, betweenOpt_mono hth1 hth2 hth⟩,
    betweenOpt_mono hel1 hel2 hec⟩
  rw [isinOpt_iff] at hco ⊢
  obtain ⟨c, hc, hcm⟩ := hco
  exact ⟨c, hc, hsel c hcm⟩

/-- C9: narrowing any one numeric range (raising its lower bound or lowering
its upper bound) or shrinking the selected corrosion-resistance category set
never increases the number of rows in the FilteredDataset. -/
theorem filter_monotone (df : List AlloyRecord) (fs fs' : FilterState)
    (hsel : ∀ c ∈ fs'.selected_corrosion, c ∈ fs.selected_corrosion)
    (ht1 : fs.tensile_range.1 ≤ fs'.tensile_range.1)
    (ht2 : fs'.tensile_range.2 ≤ fs.tensile_range.2)
    (hy1 : fs.yield_range.1 ≤ fs'.yield_range.1)
    (hy2 : fs'.yield_range.2 ≤ fs.yield_range.2)
    (he1 : fs.elongation_range.1 ≤ fs'.elongation_range.1)
    (he2 : fs'.elongation_range.2 ≤ fs.elongation_range.2)
    (hth1 : fs.thermal_cond_range.1 ≤ fs'.thermal_cond_range.1)
    (hth2 : fs'.thermal_cond_range.2 ≤ fs.thermal_cond_range.2)
    (hel1 : fs.elec_cond_range.1 ≤ fs'.elec_cond_range.1)
    (hel2 : fs'.elec_cond_range.2 ≤ fs.elec_cond_range.2) :
    (filteredDataset df fs').length ≤ (filteredDataset df fs).length :=
  length_filter_mono df (fun r _ h =>
    rowPasses_mono hsel ht1 ht2 hy1 hy2 he1 he2 hth1 hth2 hel1 hel2 r h)

/-! ### The sorted distinct option lists -/

lemma insertSorted_perm (s : String) :
    ∀ l : List String, List.Perm (insertSorted s l) (s :: l)
  | [] => List.Perm.refl _
  | a :: l => by
      unfold insertSorted
      by_cases h : pyStrLe s a
      · rw [if_pos h]
      · rw [if_neg h]
        exact List.Perm.trans (List.Perm.cons a (insertSorted_perm s l))
          (List.Perm.swap s a l)

lemma sortStrings_perm : ∀ l : List String, List.Perm (sortStrings l) l
  | [] => List.Perm.refl _
  | a :: l => by
      show List.Perm (insertSorted a (sortStrings l)) (a :: l)
      exact List.Perm.trans (insertSorted_perm a (sortStrings l))
        (List.Perm.cons a (sortStrings_perm l))

lemma mem_sortStrings {x : String} {l : List String} : x ∈ sortStrings l ↔ x ∈ l :=
  (sortStrings_perm l).mem_iff

lemma mem_corrosionOptions {df : List AlloyRecord} {c : String} :
    c ∈ corrosionOptions df ↔ ∃ r ∈ df, r.corrosion_resistance = some c := by
  unfold corrosionOptions
  rw [mem_sortStrings, List.mem_dedup, List.mem_filterMap]

/-- C1 (amended): on a loaded Dataset whose five filtered numeric columns hold
whole numbers, the default FilterState — all corrosion categories present
selected and every slider at its full span — retains every row.  (Without the
whole-number proviso a row can be dropped, because the slider bounds are the
int () truncations of the column min/max.) -/
theorem full_span_retains_all_integer_valued (df : List AlloyRecord)
    (hsome : ∀ r ∈ df, r.corrosion_resistance.isSome = true
        ∧ r.thermal_conductivity_w_mk.isSome = true
        ∧ r.electrical_conductivity_iacs.isSome = true)
    (hden : ∀ r ∈ df, r.tensile_strength_mpa.den = 1 ∧ r.yield_strength_mpa.den = 1
        ∧ r.elongation_percent.den = 1
        ∧ (r.thermal_conductivity_w_mk.getD 0).den = 1
        ∧ (r.electrical_conductivity_iacs.getD 0).den = 1) :
    filteredDataset df (defaultFilterState df) = df := by
  unfold filteredDataset
  rw [List.filter_eq_self]
  intro r hr
  obtain ⟨hcs, hts, hes⟩ := hsome r hr
  obtain ⟨c, hc⟩ := Option.isSome_iff_exists.mp hcs
  obtain ⟨qt, hqt⟩ := Option.isSome_iff_exists.mp hts
  obtain ⟨qe, hqe⟩ := Option.isSome_iff_exists.mp hes
  unfold rowPasses
  simp only [Bool.and_eq_true]
  refine ⟨⟨⟨⟨⟨?_, ?_⟩, ?_⟩, ?_⟩, ?_⟩, ?_⟩
  · rw [isinOpt_iff]
    refine ⟨c, hc, ?_⟩
    show c ∈ corrosionOptions df
    exact mem_corrosionOptions.mpr ⟨r, hr, hc⟩
  · show betweenQ r.tensile_strength_mpa (sliderRange (df.map (·.tensile_strength_mpa))) = true
    apply betweenQ_sliderRange (List.mem_map.mpr ⟨r, hr, rfl⟩)
    intro x hx
    obtain ⟨r', hr', rfl⟩ := List.mem_map.mp hx
    exact (hden r' hr').1
  · show betweenQ r.yield_strength_mpa (sliderRange (df.map (·.yield_strength_mpa))) = true
    apply betweenQ_sliderRange (List.mem_map.mpr ⟨r, hr, rfl⟩)
    intro x hx
    obtain ⟨r', hr', rfl⟩ := List.mem_map.mp hx
    exact (hden r' hr').2.1
  · show betweenQ r.elongation_percent (sliderRange (df.map (·.elongation_percent))) = true
    apply betweenQ_sliderRange (List.mem_map.mpr ⟨r, hr, rfl⟩)
    intro x hx
    obtain ⟨r', hr', rfl⟩ := List.mem_map.mp hx
    exact (hden r' hr').2.2.1
  · show betweenOpt r.thermal_conductivity_w_mk
        (sliderRange (df.filterMap (·.thermal_conductivity_w_mk))) = true
    rw [hqt]
    show betweenQ qt (sliderRange (df.filterMap (·.thermal_conductivity_w_mk))) = true
    apply betweenQ_sliderRange (List.mem_filterMap.mpr ⟨r, hr, hqt⟩)
    intro x hx
    obtain ⟨r', hr', hx'⟩ := List.mem_filterMap.mp hx
    have hd := (hden r' hr').2.2.2.1
    rw [hx'] at hd
    simpa using hd
  · show betweenOpt r.electrical_conductivity_iacs
        (sliderRange (df.filterMap (·.electrical_conductivity_iacs))) = true
    rw [hqe]
    show betweenQ qe (sliderRange (df.filterMap (·.electrical_conductivity_iacs))) = true
    apply betweenQ_sliderRange (List.mem_filterMap.mpr ⟨r, hr, hqe⟩)
    intro x hx
    obtain ⟨r', hr', hx'⟩ := List.mem_filterMap.mp hx
    have hd := (hden r' hr').2.2.2.2
    rw [hx'] at hd
    simpa using hd

/-- C4 (amended): when a numeric filter column's minimum equals its maximum v,
the slider is built with lower bound int (v) and upper bound int (v) + 1 — only
the displayed upper bound is widened by one unit — and the filter comparison is
applied to the row's true data value, which still passes the widened full-span
range provided v is nonnegative or a whole number.  (A negative fractional v is
excluded, because int () truncates toward zero and the truncated lower bound
then sits above v.) -/
theorem degenerate_slider_widening (df : List AlloyRecord) (v : ℚ) (hne : df ≠ [])
    (hall : ∀ r ∈ df, r.tensile_strength_mpa = v) (hv : 0 ≤ v ∨ v.den = 1) :
    sliderRange (df.map (·.tensile_strength_mpa)) = (pyInt v, pyInt v + 1)
  ∧ betweenQ v (pyInt v, pyInt v + 1) = true := by
  have hmapne : df.map (·.tensile_strength_mpa) ≠ [] := by
    simpa using hne
  have hconst : ∀ x ∈ df.map (·.tensile_strength_mpa), x = v := by
    intro x hx
    obtain ⟨r, hr, rfl⟩ := List.mem_map.mp hx
    exact hall r hr
  have hmin : colMin (df.map (·.tensile_strength_mpa)) = v :=
    hconst _ (colMin_mem _ hmapne)
  have hmax : colMax (df.map (·.tensile_strength_mpa)) = v :=
    hconst _ (colMax_mem _ hmapne)
  constructor
  · unfold sliderRange
    rw [hmin, hmax, if_pos rfl]
  · rw [betweenQ_iff]
    show ((pyInt v : ℤ) : ℚ) ≤ v ∧ v ≤ ((pyInt v + 1 : ℤ) : ℚ)
    have hcast : ((pyInt v + 1 : ℤ) : ℚ) = ((pyInt v : ℤ) : ℚ) + 1 := by
      push_cast; ring
    rcases hv with hv | hv
    · exact ⟨pyInt_le_of_nonneg hv,
        by rw [hcast]; linarith [lt_pyInt_add_one_of_nonneg hv]⟩
    · have h1 := pyInt_den_one hv
      exact ⟨le_of_eq h1, by rw [hcast, h1]; linarith⟩

/-! ### Concrete frames used by the witnesses and counterexamples

All rational values below are given already in lowest terms so that kernel
evaluation never has to normalize a fraction. -/

/-- A cleaned row with the given identifiers, filter-column values and
corrosion class; the remaining columns take fixed cleaned values. -/
def mkRec (alloy temper : String) (t y e tc ec : ℚ) (corr : String) : AlloyRecord :=
  { alloy := alloy, temper := temper, descriptionText := "",
    tensile_strength_mpa := t, yield_strength_mpa := y, elongation_percent := e,
    hardness_brinell := 60, corrosion_resistance := some corr,
    Si_percent := some 0, Fe_percent := some 0, Cu_percent := some 0,
    Mn_percent := some 0, Mg_percent := some 0, Cr_percent := some 0,
    Zn_percent := some 0, Ti_percent := some 0, density_g_cm3 := some 0,
    thermal_expansion_e6_k := some 0, thermal_conductivity_w_mk := some tc,
    electrical_conductivity_iacs := some ec, Al_percent := .text "Rem." }

/-- 200.5, the float 200.5 exactly. -/
def q2005 : ℚ := ⟨401, 2, by norm_num, by norm_num⟩

/-- Minus 2.5, the float -2.5 exactly. -/
def qneg25 : ℚ := ⟨-5, 2, by norm_num, by norm_num⟩

/-- The spec's two-row scenario frame: (A5052,H32) and (A6061,T6), all filter
columns integer-valued. -/
def scenarioDs : List AlloyRecord :=
  [mkRec "A5052" "H32" 228 193 12 138 35 "A",
   mkRec "A6061" "T6" 310 276 12 167 43 "B"]

/-- A two-row frame whose second row has the fractional tensile strength
200.5; the tensile slider bounds become int (100) = 100 and int (200.5) = 200. -/
def fractionalDs : List AlloyRecord :=
  [mkRec "A5052" "H32" 100 150 10 120 35 "A",
   mkRec "A6061" "T6" q2005 150 10 120 35 "A"]

/-- A one-row frame whose tensile strength is the negative fraction -2.5, so
the tensile column min equals max. -/
def negativeDs : List AlloyRecord :=
  [mkRec "A1100" "O" qneg25 150 10 120 35 "A"]

/-- C1 witness: on the two-row scenario frame the default full-span
FilterState retains both rows. -/
theorem full_span_two_row_scenario :
    filteredDataset scenarioDs (defaultFilterState scenarioDs) = scenarioDs :=
  full_span_retains_all_integer_valued scenarioDs (by decide) (by decide)

/-- C1 counterexample: the fractional row is in the Dataset but the full-span
default FilterState drops it, because the slider upper bound int (200.5) = 200
sits below the value 200.5. -/
theorem full_span_drops_fractional_row :
    mkRec "A6061" "T6" q2005 150 10 120 35 "A" ∈ fractionalDs
  ∧ mkRec "A6061" "T6" q2005 150 10 120 35 "A"
      ∉ filteredDataset fractionalDs (defaultFilterState fractionalDs)
  ∧ filteredDataset fractionalDs (defaultFilterState fractionalDs)
      = [mkRec "A5052" "H32" 100 150 10 120 35 "A"] := by
  refine ⟨by decide, by decide, by decide⟩

/-- C4 witness: a frame in which every tensile strength is 200 yields the
displayed tensile range (200, 201), and the value 200 itself passes it. -/
theorem degenerate_slider_widening_witness :
    sliderRange ((mkRec "A1100" "O" 200 150 10 120 35 "A" :: []).map
        (·.tensile_strength_mpa)) = (pyInt 200, pyInt 200 + 1)
  ∧ betweenQ 200 (pyInt 200, pyInt 200 + 1) = true :=
  degenerate_slider_widening (mkRec "A1100" "O" 200 150 10 120 35 "A" :: []) 200
    (by decide) (by decide) (Or.inl (by norm_num))

/-- C4 counterexample: with the single tensile value -2.5 the column min
equals max, the truncated bounds are (-2, -1), and the row itself — whose
value equals that minimum/maximum — fails the filter, so the claim's "still
passes" is false as stated. -/
theorem degenerate_slider_negative_cex :
    negativeDs ≠ []
  ∧ betweenQ qneg25 (sliderRange (negativeDs.map (·.tensile_strength_mpa))) = false
  ∧ filteredDataset negativeDs (defaultFilterState negativeDs) = [] := by
  refine ⟨by decide, by decide, by decide⟩

/-! ### Selection resolver lemmas -/

/-- The head of a filtered list is the first element of the original list that
passes the predicate: it occurs at some index, passes, and nothing before it
passes. -/
lemma head_filter_first {α : Type} (p : α → Bool) :
    ∀ (l : List α) (r : α), (l.filter p).head? = some r →
      ∃ i : ℕ, l[i]? = some r ∧ p r = true ∧
        ∀ (j : ℕ) (x : α), j < i → l[j]? = some x → p x = false
  | [], r => by simp
  | a :: l, r => by
      intro h
      by_cases hp : p a = true
      · rw [List.filter_cons_of_pos hp] at h
        have ha : a = r := by simpa using h
        subst ha
        refine ⟨0, by simp, hp, ?_⟩
        intro j x hj
        exact absurd hj (Nat.not_lt_zero j)
      · rw [List.filter_cons_of_neg (by simpa using hp)] at h
        obtain ⟨i, hi, hpr, hfirst⟩ := head_filter_first p l r h
        refine ⟨i + 1, by simpa using hi, hpr, ?_⟩
        intro j x hj hx
        cases j with
        | zero =>
            have hax : a = x := by simpa using hx
            subst hax
            simpa using hp
        | succ j =>
            exact hfirst j x (by omega) (by simpa using hx)

lemma filter_head_exists {α : Type} {p : α → Bool} {l : List α} {x : α}
    (hx : x ∈ l) (hp : p x = true) : ∃ r, (l.filter p).head? = some r := by
  have hmem : x ∈ l.filter p := List.mem_filter.mpr ⟨hx, hp⟩
  cases h : (l.filter p).head? with
  | some r => exact ⟨r, rfl⟩
  | none =>
      rw [List.head?_eq_none_iff] at h
      rw [h] at hmem
      simp at hmem

/-- C3 (amended): the Selection Resolver returns no selection on an empty
FilteredDataset without attempting resolution (no index error), only ever
returns records of the FilteredDataset, and — provided the chosen alloy and
temper are non-empty strings (the truthiness guard) — returns the first
FilteredDataset row matching both the chosen alloy and the chosen temper. -/
theorem selection_resolver_spec (fd : List AlloyRecord) :
    (∀ sa st, fd = [] → resolveSelection fd sa st = none)
  ∧ (∀ sa st r, resolveSelection fd sa st = some r → r ∈ fd)
  ∧ (∀ a t, a ≠ "" → t ≠ "" → a ∈ alloyList fd →
      t ∈ availableTempers fd (some a) →
      ∃ (i : ℕ) (r : AlloyRecord), resolveSelection fd (some a) (some t) = some r
        ∧ fd[i]? = some r ∧ r.alloy = a ∧ r.temper = t
        ∧ ∀ (j : ℕ) (x : AlloyRecord), j < i → fd[j]? = some x →
            ¬(x.alloy = a ∧ x.temper = t)) := by
  refine ⟨?_, ?_, ?_⟩
  · rintro sa st rfl
    unfold resolveSelection
    by_cases h : (pyTruthy sa && pyTruthy st) = true
    · rw [if_pos h]; rfl
    · rw [if_neg h]
  · intro sa st r h
    unfold resolveSelection at h
    by_cases hc : (pyTruthy sa && pyTruthy st) = true
    · rw [if_pos hc] at h
      obtain ⟨ys, hys⟩ := List.head?_eq_some_iff.mp h
      have : r ∈ fd.filter (fun x => x.alloy == sa.getD "" && x.temper == st.getD "") := by
        rw [hys]; exact List.mem_cons_self _ _
      exact (List.mem_filter.mp this).1
    · rw [if_neg hc] at h
      exact absurd h (by simp)
  · intro a t ha ht _ hat
    have hta : pyTruthy (some a) = true := by simp [pyTruthy, ha]
    have htt : pyTruthy (some t) = true := by simp [pyTruthy, ht]
    have hat' : t ∈ sortStrings
        ((fd.filter (fun r => r.alloy == a)).map (·.temper)).dedup := by
      unfold availableTempers at hat
      rw [if_pos hta] at hat
      simpa using hat
    rw [mem_sortStrings, List.mem_dedup] at hat'
    obtain ⟨r0, hr0f, hr0t⟩ := List.mem_map.mp hat'
    obtain ⟨hr0mem, hr0a⟩ := List.mem_filter.mp hr0f
    have hp0 : (r0.alloy == a && r0.temper == t) = true := by
      rw [Bool.and_eq_true, beq_iff_eq, beq_iff_eq]
      exact ⟨by simpa using hr0a, hr0t⟩
    obtain ⟨r, hr⟩ := filter_head_exists
      (p := fun x => x.alloy == a && x.temper == t) hr0mem hp0
    obtain ⟨i, hi, hpr, hfirst⟩ := head_filter_first _ fd r hr
    have hres : resolveSelection fd (some a) (some t) = some r := by
      unfold resolveSelection
      rw [if_pos (by rw [hta, htt]; rfl)]
      simpa using hr
    rw [Bool.and_eq_true, beq_iff_eq, beq_iff_eq] at hpr
    refine ⟨i, r, hres, hi, hpr.1, hpr.2, ?_⟩
    intro j x hj hx hcontra
    have hfalse := hfirst j x hj hx
    rw [hcontra.1, hcontra.2] at hfalse
    simp at hfalse

/-- C3 witness: on the two-row scenario frame, resolving the chosen pair
(A6061, T6) yields the first (and only) matching row, at its index, with
nothing before it matching. -/
theorem selection_resolver_spec_witness :
    ∃ (i : ℕ) (r : AlloyRecord),
      resolveSelection scenarioDs (some "A6061") (some "T6") = some r
      ∧ scenarioDs[i]? = some r ∧ r.alloy = "A6061" ∧ r.temper = "T6"
      ∧ ∀ (j : ℕ) (x : AlloyRecord), j < i → scenarioDs[j]? = some x →
          ¬(x.alloy = "A6061" ∧ x.temper = "T6") :=
  (selection_resolver_spec scenarioDs).2.2 "A6061" "T6" (by decide) (by decide)
    (by decide) (by decide)

/-- A one-row frame whose temper is the empty string. -/
def emptyTemperDs : List AlloyRecord := [mkRec "A5052" "" 228 193 12 138 35 "A"]

/-- C3 counterexample: the FilteredDataset is nonempty, the chosen pair
(A5052, "") comes from the computed alloy and temper option lists, and a
matching row exists — yet the resolver returns no selection instead of the
first matching row, because Python's truthiness guard treats the empty temper
string as false. -/
theorem selection_resolver_empty_temper_cex :
    emptyTemperDs ≠ []
  ∧ "A5052" ∈ alloyList emptyTemperDs
  ∧ "" ∈ availableTempers emptyTemperDs (some "A5052")
  ∧ (∃ r ∈ emptyTemperDs, r.alloy = "A5052" ∧ r.temper = "")
  ∧ resolveSelection emptyTemperDs (some "A5052") (some "") = none := by
  decide

/-! ### Loader claims -/

/-- C5: a missing CSV takes the FileNotFoundError branch (the DatasetNotFound
signal) and any other read/parse failure takes the generic branch carrying the
underlying cause (the DatasetLoadError signal); in both cases the loader
returns an empty Dataset rather than crashing and the caller stops processing
for the session. -/
theorem loader_failure_is_empty_and_stops (cause : String) :
    load_alloy_data CsvReadResult.notFound = (LoadOutcome.notFoundError, [])
  ∧ mainProceeds CsvReadResult.notFound = false
  ∧ load_alloy_data (CsvReadResult.failure cause) = (LoadOutcome.loadError cause, [])
  ∧ mainProceeds (CsvReadResult.failure cause) = false :=
  ⟨rfl, rfl, rfl, rfl⟩

/-- C6: every row of a successfully loaded Dataset (the CSV has the corrosion
column) has all twelve chemical/physical numeric fill columns and the
corrosion class non-null; missing numeric values were filled with 0, a missing
corrosion class with the dash sentinel, and the aluminum remainder column was
left untouched by the fill. -/
theorem load_fill_invariant (rows : List AlloyRecord) (r : AlloyRecord)
    (hr : r ∈ (load_alloy_data (CsvReadResult.table true rows)).2) :
    (r.Si_percent.isSome = true ∧ r.Fe_percent.isSome = true
      ∧ r.Cu_percent.isSome = true ∧ r.Mn_percent.isSome = true
      ∧ r.Mg_percent.isSome = true ∧ r.Cr_percent.isSome = true
      ∧ r.Zn_percent.isSome = true ∧ r.Ti_percent.isSome = true
      ∧ r.density_g_cm3.isSome = true ∧ r.thermal_expansion_e6_k.isSome = true
      ∧ r.thermal_conductivity_w_mk.isSome = true
      ∧ r.electrical_conductivity_iacs.isSome = true
      ∧ r.corrosion_resistance.isSome = true)
  ∧ ∃ raw ∈ rows, r = cleanRow true raw
      ∧ r.Si_percent = some (raw.Si_percent.getD 0)
      ∧ r.Fe_percent = some (raw.Fe_percent.getD 0)
      ∧ r.Cu_percent = some (raw.Cu_percent.getD 0)
      ∧ r.Mn_percent = some (raw.Mn_percent.getD 0)
      ∧ r.Mg_percent = some (raw.Mg_percent.getD 0)
      ∧ r.Cr_percent = some (raw.Cr_percent.getD 0)
      ∧ r.Zn_percent = some (raw.Zn_percent.getD 0)
      ∧ r.Ti_percent = some (raw.Ti_percent.getD 0)
      ∧ r.density_g_cm3 = some (raw.density_g_cm3.getD 0)
      ∧ r.thermal_expansion_e6_k = some (raw.thermal_expansion_e6_k.getD 0)
      ∧ r.thermal_conductivity_w_mk = some (raw.thermal_conductivity_w_mk.getD 0)
      ∧ r.electrical_conductivity_iacs = some (raw.electrical_conductivity_iacs.getD 0)
      ∧ r.corrosion_resistance = some (raw.corrosion_resistance.getD "-")
      ∧ r.Al_percent = raw.Al_percent := by
  obtain ⟨raw, hraw, rfl⟩ := List.mem_map.mp hr
  refine ⟨?_, raw, hraw, rfl, ?_⟩
  · unfold cleanRow
    simp
  · unfold cleanRow
    simp

/-- A raw row with every fillable cell missing. -/
def rawMissingRow : AlloyRecord :=
  { alloy := "A7075", temper := "T6", descriptionText := "",
    tensile_strength_mpa := 572, yield_strength_mpa := 503,
    elongation_percent := 11, hardness_brinell := 150,
    corrosion_resistance := none,
    Si_percent := none, Fe_percent := none, Cu_percent := none,
    Mn_percent := none, Mg_percent := none, Cr_percent := none,
    Zn_percent := none, Ti_percent := none, density_g_cm3 := none,
    thermal_expansion_e6_k := none, thermal_conductivity_w_mk := none,
    electrical_conductivity_iacs := none, Al_percent := .text "Rem." }

/-- C6 witness: loading a one-row frame whose fillable cells are all missing
yields a row with every fill column non-null. -/
theorem load_fill_invariant_witness :
    (cleanRow true rawMissingRow).Si_percent.isSome = true
  ∧ (cleanRow true rawMissingRow).corrosion_resistance.isSome = true :=
  ⟨((load_fill_invariant [rawMissingRow] (cleanRow true rawMissingRow)
      (by decide)).1).1,
   ((load_fill_invariant [rawMissingRow] (cleanRow true rawMissingRow)
      (by decide)).1).2.2.2.2.2.2.2.2.2.2.2.2⟩

/-- C10 (implicit): when the CSV parses and has the twelve fill columns but no
corrosion_resistance column, the loader still returns a successful load —
neither the missing-file branch nor the error branch runs — and the corrosion
value of every row is left as it was, with no dash default applied. -/
theorem loader_tolerates_missing_corrosion_column (rows : List AlloyRecord) :
    (load_alloy_data (CsvReadResult.table false rows)).1 = LoadOutcome.ok
  ∧ (load_alloy_data (CsvReadResult.table false rows)).2
      = rows.map (cleanRow false)
  ∧ (∀ r : AlloyRecord, (cleanRow false r).corrosion_resistance
      = r.corrosion_resistance) := by
  refine ⟨rfl, rfl, ?_⟩
  intro r
  unfold cleanRow
  simp

/-- C9 witness: on the two-row scenario frame, narrowing the tensile range of
the default FilterState never increases the filtered row count. -/
theorem filter_monotone_witness :
    (filteredDataset scenarioDs
      { defaultFilterState scenarioDs with tensile_range := (250, 260) }).length
    ≤ (filteredDataset scenarioDs (defaultFilterState scenarioDs)).length :=
  filter_monotone scenarioDs (defaultFilterState scenarioDs)
    { defaultFilterState scenarioDs with tensile_range := (250, 260) }
    (fun _ hc => hc) (by decide) (by decide) (le_refl _) (le_refl _) (le_refl _)
    (le_refl _) (le_refl _) (le_refl _) (le_refl _) (le_refl _)
